import Mathlib

/-!
# EcoTrack server — challenge-participation lifecycle and aggregation engine

Shallow embedding of the participation engine of the EcoTrack REST backend
(`api/index.js`): the `POST /api/challenges/join/:id`,
`PATCH /api/user-challenges/:id/progress`, `DELETE /api/user-challenges/:id`,
`GET /api/user-challenges/me` and `GET /api/stats` routes, together with the
`requireAuth` middleware.

The two MongoDB collections the engine touches (`challenges` and
`userChallenges`) are modelled as association lists from a document id to the
document, with MongoDB's first-match semantics for `findOne`, `updateOne` and
`deleteOne`.  JavaScript numbers that the engine computes with are modelled as
exact rationals; timestamps (`new Date()`) are opaque naturals supplied by the
caller of each operation.  A missing `x-user-email` header is modelled by the
caller identity being `none`.
-/

namespace EcoTrack

/-- Enrollment status as stored in the `status` field: `'Ongoing'` or `'Finished'`. -/
inductive Status where
  | Ongoing
  | Finished
deriving DecidableEq, Repr, BEq

/-- One progress-log entry, as pushed by the progress route:
`{ date: new Date(), value: Number(addLogValue) }`. -/
structure LogEntry where
  date : Nat
  value : Rat
deriving DecidableEq, Repr, BEq

/-- A `userChallenges` document (an Enrollment), with the fields written by the
join route: `userId`, `challengeId`, `status`, `progress`, `progressLogs`,
`joinDate`, `lastUpdated`. -/
structure Enrollment where
  userId : String
  challengeId : Nat
  status : Status
  progress : Rat
  progressLogs : List LogEntry
  joinDate : Nat
  lastUpdated : Nat
deriving DecidableEq, Repr, BEq

/-- A `challenges` document, restricted to the fields the participation engine
reads or writes: `title`, `category`, `createdBy` and the denormalized
`participants` counter. -/
structure Challenge where
  title : String
  category : String
  createdBy : String
  participants : Int
deriving DecidableEq, Repr, BEq

/-- The state of the two collections the engine touches.  `nextId` supplies the
fresh `_id` MongoDB would generate on `insertOne`. -/
structure DB where
  challenges : List (Nat × Challenge)
  userChallenges : List (Nat × Enrollment)
  nextId : Nat
deriving DecidableEq, Repr

/-- `findOne({ _id: id })`: the first document with the given id. -/
def findById {α : Type} (l : List (Nat × α)) (id : Nat) : Option α :=
  (l.find? (fun p => p.1 == id)).map Prod.snd

/-- `updateOne(filter, update)`: rewrite the first document matching the filter,
leave the rest untouched. -/
def updateFirst {α : Type} (l : List (Nat × α)) (p : Nat × α → Bool) (f : α → α) :
    List (Nat × α) :=
  match l with
  | [] => []
  | x :: xs => if p x then (x.1, f x.2) :: xs else x :: updateFirst xs p f

/-- `deleteOne({ _id: id })`: remove the first document with the given id. -/
def eraseFirstById {α : Type} (l : List (Nat × α)) (id : Nat) : List (Nat × α) :=
  match l with
  | [] => []
  | x :: xs => if x.1 == id then xs else x :: eraseFirstById xs id

/-- `findOne({ userId: userEmail, challengeId })` on the `userChallenges`
collection. -/
def findUserChallenge (l : List (Nat × Enrollment)) (u : String) (cid : Nat) :
    Option (Nat × Enrollment) :=
  l.find? (fun p => p.2.userId == u && p.2.challengeId == cid)

/-- Outcome of `POST /api/challenges/join/:id`.  `alreadyJoined` is the HTTP 200
"Already joined" response carrying the existing document; `created` is the HTTP
201 response carrying the inserted document and its id. -/
inductive JoinResult where
  | unauthorized
  | notFound
  | alreadyJoined (userChallenge : Enrollment)
  | created (userChallengeId : Nat) (userChallenge : Enrollment)
deriving DecidableEq, Repr

/-- The document inserted by the join route: status `'Ongoing'`, progress 0,
empty log, both timestamps set to now. -/
def freshEnrollment (userEmail : String) (challengeId now : Nat) : Enrollment :=
  { userId := userEmail
    challengeId := challengeId
    status := .Ongoing
    progress := 0
    progressLogs := []
    joinDate := now
    lastUpdated := now }

/-- The unguarded increment of the join route:
`updateOne({ _id: cid }, { $inc: { participants: 1 } })`. -/
def incParticipants (cs : List (Nat × Challenge)) (cid : Nat) :
    List (Nat × Challenge) :=
  updateFirst cs (fun p => p.1 == cid)
    (fun c => { c with participants := c.participants + 1 })

/-- `POST /api/challenges/join/:id` (requireAuth): look up the challenge (404 if
absent), look up an existing enrollment for (caller, challenge) (200 with it if
present), otherwise insert a fresh enrollment and `$inc` the challenge's
`participants` by 1. -/
def join (db : DB) (caller : Option String) (challengeId : Nat) (now : Nat) :
    JoinResult × DB :=
  match caller with
  | none => (.unauthorized, db)
  | some userEmail =>
    match findById db.challenges challengeId with
    | none => (.notFound, db)
    | some _ =>
      match findUserChallenge db.userChallenges userEmail challengeId with
      | some (_, existing) => (.alreadyJoined existing, db)
      | none =>
        let uc := freshEnrollment userEmail challengeId now
        (.created db.nextId uc,
         { challenges := incParticipants db.challenges challengeId
           userChallenges := db.userChallenges ++ [(db.nextId, uc)]
           nextId := db.nextId + 1 })

/-- Outcome of `PATCH /api/user-challenges/:id/progress`.  The success response
is `{ success: true, updated }` where `updated` is a fresh `findOne` after the
writes (hence an `Option`). -/
inductive UpdateResult where
  | unauthorized
  | notFound
  | forbidden
  | ok (updated : Option Enrollment)
deriving DecidableEq, Repr

/-- The `$set` document built by the progress route: if a numeric `progress` was
supplied, `progress` is clamped by `Math.min(100, Math.max(0, progress))` and
`status` is `'Finished'` iff the clamped value is `>= 100`; `lastUpdated` is
always refreshed. -/
def applyProgressSet (progressArg : Option Rat) (now : Nat) (e : Enrollment) :
    Enrollment :=
  let e1 := match progressArg with
    | some q =>
      let clamped := min 100 (max 0 q)
      { e with progress := clamped
               status := if 100 ≤ clamped then Status.Finished else .Ongoing }
    | none => e
  { e1 with lastUpdated := now }

/-- The `$push` of the progress route when `addLogValue` is numeric:
`updateOne({ _id: id }, { $push: { progressLogs: { date: now, value } } })`. -/
def pushLogEntry (l : List (Nat × Enrollment)) (id now : Nat) (v : Rat) :
    List (Nat × Enrollment) :=
  updateFirst l (fun p => p.1 == id)
    (fun e => { e with progressLogs := e.progressLogs ++ [⟨now, v⟩] })

/-- The `userChallenges` collection after the writes of the progress route:
the optional `$push`, then the `$set`. -/
def progressWrites (l : List (Nat × Enrollment)) (id : Nat)
    (progressArg addLogValueArg : Option Rat) (now : Nat) :
    List (Nat × Enrollment) :=
  let ucs1 := match addLogValueArg with
    | some v => pushLogEntry l id now v
    | none => l
  updateFirst ucs1 (fun p => p.1 == id) (applyProgressSet progressArg now)

/-- `PATCH /api/user-challenges/:id/progress` (requireAuth): 404 if the
enrollment is absent, 403 if not owned by the caller; otherwise first `$push`
a log entry when `addLogValue` is numeric, then `$set` the update document,
then re-read the document. -/
def updateProgress (db : DB) (caller : Option String) (id : Nat)
    (progressArg : Option Rat) (addLogValueArg : Option Rat) (now : Nat) :
    UpdateResult × DB :=
  match caller with
  | none => (.unauthorized, db)
  | some userEmail =>
    match findById db.userChallenges id with
    | none => (.notFound, db)
    | some uc =>
      if uc.userId ≠ userEmail then (.forbidden, db)
      else
        let ucs2 := progressWrites db.userChallenges id progressArg addLogValueArg now
        (.ok (findById ucs2 id), { db with userChallenges := ucs2 })

/-- Outcome of `DELETE /api/user-challenges/:id`. -/
inductive LeaveResult where
  | unauthorized
  | notFound
  | forbidden
  | ok
deriving DecidableEq, Repr

/-- The guarded decrement of the leave route:
`updateOne({ _id: cid, participants: { $gt: 0 } }, { $inc: { participants: -1 } })`. -/
def decParticipants (cs : List (Nat × Challenge)) (cid : Nat) :
    List (Nat × Challenge) :=
  updateFirst cs (fun p => p.1 == cid && decide (0 < p.2.participants))
    (fun c => { c with participants := c.participants - 1 })

/-- `DELETE /api/user-challenges/:id` (requireAuth): 404 if the enrollment is
absent, 403 if not owned by the caller; otherwise delete the enrollment and
apply the guarded decrement to the parent challenge's `participants`. -/
def leave (db : DB) (caller : Option String) (id : Nat) : LeaveResult × DB :=
  match caller with
  | none => (.unauthorized, db)
  | some userEmail =>
    match findById db.userChallenges id with
    | none => (.notFound, db)
    | some uc =>
      if uc.userId ≠ userEmail then (.forbidden, db)
      else
        let ucs := eraseFirstById db.userChallenges id
        let cs := decParticipants db.challenges uc.challengeId
        (.ok, { db with userChallenges := ucs, challenges := cs })

/-- Outcome of `GET /api/user-challenges/me`: each owned enrollment paired with
the `findOne` of its referenced challenge (which may be `none`). -/
inductive ListResult where
  | unauthorized
  | ok (items : List (Enrollment × Option Challenge))
deriving DecidableEq, Repr

/-- `GET /api/user-challenges/me` (requireAuth): all enrollments with
`userId = userEmail`, each populated with its referenced challenge or `null`. -/
def listMine (db : DB) (caller : Option String) : ListResult :=
  match caller with
  | none => .unauthorized
  | some userEmail =>
    let ucs := db.userChallenges.filter (fun p => p.2.userId == userEmail)
    .ok (ucs.map (fun p => (p.2, findById db.challenges p.2.challengeId)))

/-- The `$match: { status: 'Ongoing' }` stage of the stats pipeline. -/
def ongoingEnrollments (db : DB) : List Enrollment :=
  (db.userChallenges.map Prod.snd).filter (fun e => e.status == Status.Ongoing)

/-- The `$group: { users: { $addToSet: '$userId' } }` stage: fold the ids into
a duplicate-free accumulator, in document order. -/
def addToSetFold (l : List String) : List String :=
  l.foldl (fun acc u => if u ∈ acc then acc else acc ++ [u]) []

/-- `activeParticipants` of `GET /api/stats`: the `$size` of the `$addToSet`
set, with `(uniqAgg[0] && uniqAgg[0].count) || 0` yielding 0 when the matched
corpus is empty. -/
def activeParticipants (db : DB) : Nat :=
  match ongoingEnrollments db with
  | [] => 0
  | matched => (addToSetFold (matched.map (fun e => e.userId))).length

/-- The `$unwind: '$progressLogs'` stage with
`preserveNullAndEmptyArrays: false`: one output document per log entry. -/
def unwoundLogs (db : DB) : List LogEntry :=
  ((db.userChallenges.map Prod.snd).map (fun e => e.progressLogs)).flatten

/-- `totalPlasticReducedKg` of `GET /api/stats`: the `$sum` of the unwound log
values, with `(sumAgg[0] && sumAgg[0].totalValue) || 0` yielding 0 when the
unwound corpus is empty. -/
def totalLoggedQuantity (db : DB) : Rat :=
  match unwoundLogs db with
  | [] => 0
  | entries => (entries.map (fun en => en.value)).sum

/-- The response of `GET /api/stats`, restricted to the fields computed from
the modelled collections (`totalTips`, `totalEvents`, `totalUsers` are
pass-through counts of external collections). -/
structure Stats where
  totalChallenges : Nat
  activeParticipants : Nat
  totalPlasticReducedKg : Rat
deriving DecidableEq, Repr

/-- `GET /api/stats` (no auth): entity count plus the two aggregations. -/
def computeStats (db : DB) : Stats :=
  { totalChallenges := db.challenges.length
    activeParticipants := activeParticipants db
    totalPlasticReducedKg := totalLoggedQuantity db }

/-- The `participants` counter currently stored for a challenge id. -/
def getParticipants (db : DB) (cid : Nat) : Option Int :=
  (findById db.challenges cid).map (fun c => c.participants)

/-- How many enrollments exist for a given (user, challenge) pair. -/
def countUserChallenge (db : DB) (u : String) (cid : Nat) : Nat :=
  (db.userChallenges.filter
    (fun p => p.2.userId == u && p.2.challengeId == cid)).length

/-- The spec's per-enrollment invariant: progress within [0,100] and status
`Finished` exactly when progress has reached 100. -/
def EnrollmentInvariant (e : Enrollment) : Prop :=
  0 ≤ e.progress ∧ e.progress ≤ 100 ∧ (e.status = Status.Finished ↔ 100 ≤ e.progress)

/-- The enrollment invariant, over every stored enrollment. -/
def StoreInvariant (db : DB) : Prop :=
  ∀ x ∈ db.userChallenges, EnrollmentInvariant x.2

/-- States reachable from an enrollment-free store by any sequence of Join and
UpdateProgress operations, with arbitrary callers, ids, arguments and clocks. -/
inductive Reachable : DB → Prop where
  | base (db : DB) (h : db.userChallenges = []) : Reachable db
  | joinStep (db : DB) (caller : Option String) (cid now : Nat)
      (h : Reachable db) : Reachable (join db caller cid now).2
  | updateStep (db : DB) (caller : Option String) (id : Nat)
      (progressArg addLogValueArg : Option Rat) (now : Nat)
      (h : Reachable db) : Reachable (updateProgress db caller id progressArg addLogValueArg now).2

/-- All challenge counters in the store are non-negative. -/
def NonNegCounters (db : DB) : Prop :=
  ∀ x ∈ db.challenges, 0 ≤ x.2.participants

/-- Fold a sequence of Leave calls (caller, enrollment id) over the store. -/
def leaveSeq (db : DB) (calls : List (Option String × Nat)) : DB :=
  calls.foldl (fun d c => (leave d c.1 c.2).2) db

/-- Fold a sequence of log-only UpdateProgress calls (value, clock) by one
caller on one enrollment over the store. -/
def updateSeq (db : DB) (u : String) (id : Nat) (calls : List (Rat × Nat)) : DB :=
  calls.foldl (fun d c => (updateProgress d (some u) id none (some c.1) c.2).2) db

/-- A sample challenge document for concrete instantiations. -/
def sampleChallenge : Challenge := ⟨"Plastic Free July", "waste", "owner@eco.org", 0⟩

/-- A sample store: one challenge with id 1, no enrollments. -/
def sampleDB : DB := ⟨[(1, sampleChallenge)], [], 5⟩

/-- A sample enrollment owned by `a@b.c` in challenge 1. -/
def sampleEnrollment : Enrollment := ⟨"a@b.c", 1, .Ongoing, 20, [⟨3, 5⟩], 2, 3⟩

/-- A sample store holding one challenge and one enrollment. -/
def sampleDB2 : DB := ⟨[(1, sampleChallenge)], [(7, sampleEnrollment)], 9⟩

/-- A sample enrollment whose referenced challenge (id 42) does not exist. -/
def orphanEnrollment : Enrollment := ⟨"a@b.c", 42, .Ongoing, 0, [], 2, 3⟩

/-- A sample store holding an orphaned enrollment. -/
def orphanDB : DB := ⟨[(1, sampleChallenge)], [(8, orphanEnrollment)], 9⟩

/-- The aggregation example: u1 ongoing in challenge 1 with logs [5,3], u1
ongoing in challenge 2 with no logs, u2 finished in challenge 1 with log [10]. -/
def statsDB : DB :=
  ⟨[], [(1, ⟨"u1", 1, .Ongoing, 10, [⟨1, 5⟩, ⟨2, 3⟩], 0, 0⟩),
        (2, ⟨"u1", 2, .Ongoing, 0, [], 0, 0⟩),
        (3, ⟨"u2", 1, .Finished, 100, [⟨3, 10⟩], 0, 0⟩)], 4⟩

/-! ## Store-primitive lemmas -/

theorem findById_nil {α : Type} (id : Nat) : findById ([] : List (Nat × α)) id = none := rfl

theorem findById_cons {α : Type} (x : Nat × α) (xs : List (Nat × α)) (id : Nat) :
    findById (x :: xs) id = if x.1 = id then some x.2 else findById xs id := by
  by_cases h : x.1 = id <;> simp [findById, List.find?_cons, h]

theorem updateFirst_nil {α : Type} (p : Nat × α → Bool) (f : α → α) :
    updateFirst ([] : List (Nat × α)) p f = [] := rfl

theorem updateFirst_cons {α : Type} (x : Nat × α) (xs : List (Nat × α))
    (p : Nat × α → Bool) (f : α → α) :
    updateFirst (x :: xs) p f =
      if p x then (x.1, f x.2) :: xs else x :: updateFirst xs p f := rfl

/-- Updating the first document with a given id rewrites exactly what a
subsequent `findOne` on that id returns. -/
theorem findById_updateFirst_key {α : Type} (l : List (Nat × α)) (id : Nat) (f : α → α) :
    findById (updateFirst l (fun p => p.1 == id) f) id = (findById l id).map f := by
  induction l with
  | nil => rfl
  | cons x xs ih =>
    by_cases h : x.1 = id
    · simp [updateFirst_cons, findById_cons, h]
    · simp [updateFirst_cons, findById_cons, h, ih]

/-- Updating the first document with one id leaves `findOne` on any other id
unchanged. -/
theorem findById_updateFirst_ne {α : Type} (l : List (Nat × α)) (id id2 : Nat)
    (f : α → α) (h : id2 ≠ id) :
    findById (updateFirst l (fun p => p.1 == id) f) id2 = findById l id2 := by
  induction l with
  | nil => rfl
  | cons x xs ih =>
    by_cases hx : x.1 = id
    · have hne : ¬ x.1 = id2 := by omega
      rw [updateFirst_cons, if_pos (by simpa using hx), findById_cons, findById_cons]
      simp [hne]
    · rw [updateFirst_cons, if_neg (by simpa using hx), findById_cons, findById_cons]
      by_cases hx2 : x.1 = id2
      · simp [hx2]
      · simp [hx2, ih]

/-- Every document of an updated store is either an untouched original or the
rewrite of an original that matched the filter. -/
theorem mem_updateFirst {α : Type} {l : List (Nat × α)} {p : Nat × α → Bool}
    {f : α → α} {x : Nat × α} (hx : x ∈ updateFirst l p f) :
    x ∈ l ∨ ∃ y ∈ l, p y = true ∧ x = (y.1, f y.2) := by
  induction l with
  | nil => simp [updateFirst_nil] at hx
  | cons a as ih =>
    rw [updateFirst_cons] at hx
    by_cases h : p a
    · rw [if_pos h] at hx
      rcases List.mem_cons.1 hx with h1 | h1
      · exact Or.inr ⟨a, List.mem_cons_self a as, h, h1⟩
      · exact Or.inl (List.mem_cons_of_mem a h1)
    · rw [if_neg (by simpa using h)] at hx
      rcases List.mem_cons.1 hx with h1 | h1
      · exact Or.inl (h1 ▸ List.mem_cons_self a as)
      · rcases ih h1 with h2 | ⟨y, hy, hpy, hxy⟩
        · exact Or.inl (List.mem_cons_of_mem a h2)
        · exact Or.inr ⟨y, List.mem_cons_of_mem a hy, hpy, hxy⟩

/-- When no document matches the filter, `updateOne` is a no-op. -/
theorem updateFirst_eq_of_no_match {α : Type} {l : List (Nat × α)}
    {p : Nat × α → Bool} (f : α → α) (h : ∀ x ∈ l, p x = false) :
    updateFirst l p f = l := by
  induction l with
  | nil => rfl
  | cons a as ih =>
    rw [updateFirst_cons, if_neg (by simp [h a (List.mem_cons_self a as)])]
    exact congrArg (a :: ·) (ih fun x hx => h x (List.mem_cons_of_mem a hx))

/-- A property preserved by the rewrite function is preserved across
`updateOne`, whatever the filter. -/
theorem updateFirst_forall {α : Type} {P : α → Prop} {l : List (Nat × α)}
    {p : Nat × α → Bool} {f : α → α}
    (h : ∀ x ∈ l, P x.2) (hf : ∀ a, P a → P (f a)) :
    ∀ x ∈ updateFirst l p f, P x.2 := by
  intro x hx
  rcases mem_updateFirst hx with h1 | ⟨y, hy, _, hxy⟩
  · exact h x h1
  · exact hxy ▸ hf y.2 (h y hy)

/-! ## Lemmas about the guarded participants decrement -/

/-- If no document has the parent id, the guarded decrement matches nothing. -/
theorem decParticipants_of_not_found {cs : List (Nat × Challenge)} {cid : Nat}
    (h : findById cs cid = none) : decParticipants cs cid = cs := by
  apply updateFirst_eq_of_no_match
  intro x hx
  have hfind : cs.find? (fun p => p.1 == cid) = none := by
    by_contra hne
    rcases Option.ne_none_iff_exists.1 hne with ⟨y, hy⟩
    rw [findById, ← hy] at h
    simp at h
  have hne : ¬ ((fun p => p.1 == cid) x = true) := List.find?_eq_none.1 hfind x hx
  simp only [Bool.and_eq_false_iff]
  left
  simpa using hne

/-- When the stored counter is positive, the guarded decrement takes 1 off the
document a `findOne` on that id returns. -/
theorem findById_decParticipants_pos {cs : List (Nat × Challenge)} {cid : Nat}
    {c : Challenge} (h : findById cs cid = some c) (hpos : 0 < c.participants) :
    findById (decParticipants cs cid) cid =
      some { c with participants := c.participants - 1 } := by
  induction cs with
  | nil => simp [findById_nil] at h
  | cons x xs ih =>
    rw [findById_cons] at h
    by_cases hx : x.1 = cid
    · rw [if_pos hx] at h
      have hc : x.2 = c := by injection h
      rw [decParticipants, updateFirst_cons,
        if_pos (by simp [hx, hc, hpos]), findById_cons, if_pos hx, hc]
    · rw [if_neg hx] at h
      rw [decParticipants, updateFirst_cons, if_neg (by simp [hx]), findById_cons,
        if_neg hx]
      exact ih h

/-- When the stored counter is already 0 (ids unique), the guarded decrement is
a no-op on the whole store. -/
theorem decParticipants_no_op {cs : List (Nat × Challenge)} {cid : Nat}
    {c : Challenge} (hnd : (cs.map Prod.fst).Nodup)
    (h : findById cs cid = some c) (hz : c.participants = 0) :
    decParticipants cs cid = cs := by
  induction cs with
  | nil => rfl
  | cons x xs ih =>
    rw [List.map_cons, List.nodup_cons] at hnd
    rw [findById_cons] at h
    by_cases hx : x.1 = cid
    · rw [if_pos hx] at h
      have hc : x.2 = c := by injection h
      rw [decParticipants, updateFirst_cons, if_neg (by simp [hc, hz])]
      have hnone : ∀ y ∈ xs, ((fun p => p.1 == cid && decide (0 < p.2.participants)) y) = false := by
        intro y hy
        have : y.1 ≠ cid := fun hcontra =>
          hnd.1 (by rw [hx, ← hcontra]; exact List.mem_map_of_mem Prod.fst hy)
        simp [this]
      rw [updateFirst_eq_of_no_match _ hnone]
    · rw [if_neg hx] at h
      rw [decParticipants, updateFirst_cons, if_neg (by simp [hx])]
      exact congrArg (x :: ·) (ih hnd.2 h)

/-- The guarded decrement preserves non-negativity of every stored counter. -/
theorem decParticipants_nonneg {cs : List (Nat × Challenge)} {cid : Nat}
    (h : ∀ x ∈ cs, 0 ≤ x.2.participants) :
    ∀ x ∈ decParticipants cs cid, 0 ≤ x.2.participants := by
  intro x hx
  rcases mem_updateFirst hx with h1 | ⟨y, hy, hpy, hxy⟩
  · exact h x h1
  · have hgt : 0 < y.2.participants := by
      simp only [Bool.and_eq_true, decide_eq_true_eq] at hpy
      exact hpy.2
    rw [hxy]
    simpa using hgt

/-! ## Lemmas about enrollment lookups -/

/-- If no enrollment for (user, challenge) is found, none is stored. -/
theorem filter_of_findUserChallenge_none {l : List (Nat × Enrollment)} {u : String}
    {cid : Nat} (h : findUserChallenge l u cid = none) :
    l.filter (fun p => p.2.userId == u && p.2.challengeId == cid) = [] := by
  rw [List.filter_eq_nil_iff]
  exact fun a ha => by simpa using List.find?_eq_none.1 h a ha

/-! ## Branch equations of the three mutating routes -/

theorem join_of_challenge_absent {db : DB} {u : String} {cid now : Nat}
    (hc : findById db.challenges cid = none) :
    join db (some u) cid now = (.notFound, db) := by
  simp [join, hc]

theorem join_of_already_joined {db : DB} {u : String} {cid now : Nat}
    {c : Challenge} {k : Nat} {e : Enrollment}
    (hc : findById db.challenges cid = some c)
    (he : findUserChallenge db.userChallenges u cid = some (k, e)) :
    join db (some u) cid now = (.alreadyJoined e, db) := by
  simp [join, hc, he]

theorem join_of_fresh {db : DB} {u : String} {cid now : Nat} {c : Challenge}
    (hc : findById db.challenges cid = some c)
    (he : findUserChallenge db.userChallenges u cid = none) :
    join db (some u) cid now =
      (.created db.nextId (freshEnrollment u cid now),
       { challenges := incParticipants db.challenges cid
         userChallenges := db.userChallenges ++ [(db.nextId, freshEnrollment u cid now)]
         nextId := db.nextId + 1 }) := by
  simp [join, hc, he]

theorem updateProgress_of_absent {db : DB} {u : String} {id : Nat}
    {progressArg addLogValueArg : Option Rat} {now : Nat}
    (h : findById db.userChallenges id = none) :
    updateProgress db (some u) id progressArg addLogValueArg now = (.notFound, db) := by
  simp [updateProgress, h]

theorem updateProgress_of_forbidden {db : DB} {u : String} {id : Nat}
    {progressArg addLogValueArg : Option Rat} {now : Nat} {uc : Enrollment}
    (h : findById db.userChallenges id = some uc) (hne : uc.userId ≠ u) :
    updateProgress db (some u) id progressArg addLogValueArg now = (.forbidden, db) := by
  simp [updateProgress, h, hne]

theorem updateProgress_of_owner {db : DB} {u : String} {id : Nat}
    {progressArg addLogValueArg : Option Rat} {now : Nat} {uc : Enrollment}
    (h : findById db.userChallenges id = some uc) (ho : uc.userId = u) :
    updateProgress db (some u) id progressArg addLogValueArg now =
      (.ok (findById (progressWrites db.userChallenges id progressArg addLogValueArg now) id),
       { db with userChallenges :=
           progressWrites db.userChallenges id progressArg addLogValueArg now }) := by
  simp [updateProgress, h, ho]

theorem leave_of_absent {db : DB} {u : String} {id : Nat}
    (h : findById db.userChallenges id = none) :
    leave db (some u) id = (.notFound, db) := by
  simp [leave, h]

theorem leave_of_forbidden {db : DB} {u : String} {id : Nat} {uc : Enrollment}
    (h : findById db.userChallenges id = some uc) (hne : uc.userId ≠ u) :
    leave db (some u) id = (.forbidden, db) := by
  simp [leave, h, hne]

theorem leave_of_owner {db : DB} {u : String} {id : Nat} {uc : Enrollment}
    (h : findById db.userChallenges id = some uc) (ho : uc.userId = u) :
    leave db (some u) id =
      (.ok, { db with userChallenges := eraseFirstById db.userChallenges id
                      challenges := decParticipants db.challenges uc.challengeId }) := by
  simp [leave, h, ho]

/-! ## Invariant preservation -/

theorem enrollmentInvariant_fresh (u : String) (cid now : Nat) :
    EnrollmentInvariant (freshEnrollment u cid now) := by
  refine ⟨le_refl 0, by norm_num [freshEnrollment], ?_⟩
  constructor
  · intro h
    exact absurd h (by simp [freshEnrollment])
  · intro h
    exact absurd h (by norm_num [freshEnrollment])

theorem enrollmentInvariant_applyProgressSet (progressArg : Option Rat) (now : Nat)
    (e : Enrollment) (he : EnrollmentInvariant e) :
    EnrollmentInvariant (applyProgressSet progressArg now e) := by
  cases progressArg with
  | none => exact he
  | some q =>
    refine ⟨le_min (by norm_num) (le_max_left 0 q), min_le_left _ _, ?_⟩
    show (if 100 ≤ min 100 (max 0 q) then Status.Finished else Status.Ongoing)
        = Status.Finished ↔ 100 ≤ min 100 (max 0 q)
    by_cases h : 100 ≤ min 100 (max 0 q) <;> simp [h]

theorem enrollmentInvariant_pushLog (now : Nat) (v : Rat) (e : Enrollment)
    (he : EnrollmentInvariant e) :
    EnrollmentInvariant { e with progressLogs := e.progressLogs ++ [⟨now, v⟩] } := he

/-- Every state reachable by Join and UpdateProgress satisfies the per-enrollment
invariant. -/
theorem reachable_storeInvariant : ∀ db, Reachable db → StoreInvariant db := by
  intro db h
  induction h with
  | base db h =>
    intro x hx
    rw [h] at hx
    cases hx
  | joinStep db caller cid now _ ih =>
    cases caller with
    | none => exact ih
    | some u =>
      cases hc : findById db.challenges cid with
      | none =>
        rw [join_of_challenge_absent hc]
        exact ih
      | some c =>
        cases he : findUserChallenge db.userChallenges u cid with
        | some pr =>
          obtain ⟨k, e⟩ := pr
          rw [join_of_already_joined hc he]
          exact ih
        | none =>
          rw [join_of_fresh hc he]
          intro x hx
          rcases List.mem_append.1 hx with h1 | h1
          · exact ih x h1
          · have hx2 : x = (db.nextId, freshEnrollment u cid now) := by simpa using h1
            rw [hx2]
            exact enrollmentInvariant_fresh u cid now
  | updateStep db caller id progressArg addLogValueArg now _ ih =>
    cases caller with
    | none => exact ih
    | some u =>
      cases hf : findById db.userChallenges id with
      | none =>
        rw [updateProgress_of_absent hf]
        exact ih
      | some uc =>
        by_cases ho : uc.userId = u
        · rw [updateProgress_of_owner hf ho]
          intro x hx
          cases addLogValueArg with
          | none =>
            simp only [progressWrites] at hx
            exact updateFirst_forall ih
              (fun a ha => enrollmentInvariant_applyProgressSet progressArg now a ha) x hx
          | some v =>
            simp only [progressWrites] at hx
            have hmid : ∀ y ∈ pushLogEntry db.userChallenges id now v,
                EnrollmentInvariant y.2 :=
              updateFirst_forall ih (fun a ha => enrollmentInvariant_pushLog now v a ha)
            exact updateFirst_forall hmid
              (fun a ha => enrollmentInvariant_applyProgressSet progressArg now a ha) x hx
        · rw [updateProgress_of_forbidden hf ho]
          exact ih

/-- A successful owner update re-reads the enrollment after the writes. -/
theorem findById_progressWrites {l : List (Nat × Enrollment)} {id : Nat}
    (progressArg addLogValueArg : Option Rat) (now : Nat) {uc : Enrollment}
    (hf : findById l id = some uc) :
    findById (progressWrites l id progressArg addLogValueArg now) id =
      some (applyProgressSet progressArg now
        (match addLogValueArg with
         | some v => { uc with progressLogs := uc.progressLogs ++ [⟨now, v⟩] }
         | none => uc)) := by
  cases addLogValueArg with
  | none =>
    rw [progressWrites]
    rw [findById_updateFirst_key, hf]
    rfl
  | some v =>
    rw [progressWrites]
    show findById (updateFirst (pushLogEntry l id now v) _ _) id = _
    rw [findById_updateFirst_key, pushLogEntry, findById_updateFirst_key, hf]
    rfl

/-! ## Claim theorems -/

/-- C2: every enrollment reachable by any sequence of Join and UpdateProgress
operations has progress within [0,100] and status `Finished` exactly when
progress has reached 100; and a numeric `progress` argument is stored clamped
to [0,100], the status being derived from the clamped value alone. -/
theorem progress_clamped_and_status (db : DB) (hr : Reachable db) :
    (∀ x ∈ db.userChallenges,
        0 ≤ x.2.progress ∧ x.2.progress ≤ 100
        ∧ (x.2.status = Status.Finished ↔ 100 ≤ x.2.progress))
    ∧ (∀ caller id q addLogValueArg now e2 db2,
        updateProgress db caller id (some q) addLogValueArg now = (.ok (some e2), db2) →
        e2.progress = min 100 (max 0 q)
        ∧ e2.status = (if 100 ≤ min 100 (max 0 q) then Status.Finished else Status.Ongoing)) := by
  constructor
  · exact reachable_storeInvariant db hr
  · intro caller id q addLogValueArg now e2 db2 heq
    cases caller with
    | none => simp [updateProgress] at heq
    | some u =>
      cases hf : findById db.userChallenges id with
      | none =>
        rw [updateProgress_of_absent hf] at heq
        simp at heq
      | some uc =>
        by_cases ho : uc.userId = u
        · rw [updateProgress_of_owner hf ho] at heq
          have h1 : findById (progressWrites db.userChallenges id (some q) addLogValueArg now) id
              = some e2 := by
            have := congrArg Prod.fst heq
            simpa using this
          rw [findById_progressWrites (some q) addLogValueArg now hf] at h1
          cases addLogValueArg with
          | none =>
            have h2 : applyProgressSet (some q) now uc = e2 := by
              injection h1
            rw [← h2]
            exact ⟨rfl, rfl⟩
          | some v =>
            have h2 : applyProgressSet (some q) now
                { uc with progressLogs := uc.progressLogs ++ [⟨now, v⟩] } = e2 := by
              injection h1
            rw [← h2]
            exact ⟨rfl, rfl⟩
        · rw [updateProgress_of_forbidden hf ho] at heq
          simp at heq

/-- Closed instance of `progress_clamped_and_status` at the reachable store
obtained by joining challenge 1, which holds one enrollment (id 5); an
out-of-range update (progress 150) there succeeds and is stored clamped to 100
with status Finished. -/
theorem progress_clamped_and_status_witness :
    Reachable (join sampleDB (some "a@b.c") 1 2).2
    ∧ ((∀ x ∈ (join sampleDB (some "a@b.c") 1 2).2.userChallenges,
          0 ≤ x.2.progress ∧ x.2.progress ≤ 100
          ∧ (x.2.status = Status.Finished ↔ 100 ≤ x.2.progress))
      ∧ (∀ caller id q addLogValueArg now e2 db2,
          updateProgress (join sampleDB (some "a@b.c") 1 2).2 caller id (some q)
              addLogValueArg now = (.ok (some e2), db2) →
          e2.progress = min 100 (max 0 q)
          ∧ e2.status = (if 100 ≤ min 100 (max 0 q) then Status.Finished else Status.Ongoing)))
    ∧ (join sampleDB (some "a@b.c") 1 2).2.userChallenges
        = [(5, freshEnrollment "a@b.c" 1 2)]
    ∧ (∃ e2 db2,
        updateProgress (join sampleDB (some "a@b.c") 1 2).2 (some "a@b.c") 5
            (some 150) none 3 = (.ok (some e2), db2)
        ∧ e2.progress = 100 ∧ e2.status = Status.Finished) := by
  have hreach : Reachable (join sampleDB (some "a@b.c") 1 2).2 :=
    Reachable.joinStep sampleDB (some "a@b.c") 1 2 (Reachable.base sampleDB rfl)
  refine ⟨hreach, progress_clamped_and_status _ hreach, by decide, ?_⟩
  have hf : findById (join sampleDB (some "a@b.c") 1 2).2.userChallenges 5
      = some (freshEnrollment "a@b.c" 1 2) := by decide
  have ho : (freshEnrollment "a@b.c" 1 2).userId = "a@b.c" := by decide
  refine ⟨applyProgressSet (some 150) 3 (freshEnrollment "a@b.c" 1 2),
      { (join sampleDB (some "a@b.c") 1 2).2 with
          userChallenges := progressWrites
            (join sampleDB (some "a@b.c") 1 2).2.userChallenges 5 (some 150) none 3 },
      ?_, ?_, ?_⟩
  · rw [updateProgress_of_owner hf ho, findById_progressWrites (some 150) none 3 hf]
  · show min 100 (max 0 (150 : Rat)) = 100
    norm_num
  · show (if (100 : Rat) ≤ min 100 (max 0 150) then Status.Finished else Status.Ongoing)
        = Status.Finished
    rw [if_pos (by norm_num)]

/-- C1: Join is idempotent in state.  When an enrollment for (caller, challenge)
already exists, Join returns it unchanged with the distinct `alreadyJoined`
signal, inserts nothing and bumps no counter; and two sequential Joins by the
same (user, challenge) leave exactly one enrollment and increment the
challenge's `participants` counter exactly once. -/
theorem join_idempotent (db : DB) (u : String) (cid now now2 : Nat) (c : Challenge)
    (hc : findById db.challenges cid = some c) :
    (∀ k e, findUserChallenge db.userChallenges u cid = some (k, e) →
        join db (some u) cid now = (.alreadyJoined e, db))
    ∧ (findUserChallenge db.userChallenges u cid = none →
        countUserChallenge (join db (some u) cid now).2 u cid = 1
        ∧ getParticipants (join db (some u) cid now).2 cid = some (c.participants + 1)
        ∧ ∃ e2, join (join db (some u) cid now).2 (some u) cid now2 =
            (.alreadyJoined e2, (join db (some u) cid now).2)) := by
  constructor
  · intro k e he
    exact join_of_already_joined hc he
  · intro he
    rw [join_of_fresh hc he]
    refine ⟨?_, ?_, ?_⟩
    · rw [countUserChallenge]
      simp only [List.filter_append, filter_of_findUserChallenge_none he]
      simp [freshEnrollment]
    · rw [getParticipants]
      show ((findById (incParticipants db.challenges cid) cid).map _) = _
      rw [incParticipants, findById_updateFirst_key, hc]
      rfl
    · refine ⟨freshEnrollment u cid now, ?_⟩
      have hc2 : findById (incParticipants db.challenges cid) cid =
          some { c with participants := c.participants + 1 } := by
        rw [incParticipants, findById_updateFirst_key, hc]
        rfl
      have he2 : findUserChallenge
          (db.userChallenges ++ [(db.nextId, freshEnrollment u cid now)]) u cid =
          some (db.nextId, freshEnrollment u cid now) := by
        rw [findUserChallenge, List.find?_append]
        rw [findUserChallenge] at he
        rw [he]
        simp [freshEnrollment]
      exact join_of_already_joined hc2 he2

/-- Closed instance of `join_idempotent` at a concrete store. -/
theorem join_idempotent_witness :
    findById sampleDB.challenges 1 = some sampleChallenge
    ∧ ((∀ k e, findUserChallenge sampleDB.userChallenges "a@b.c" 1 = some (k, e) →
          join sampleDB (some "a@b.c") 1 10 = (.alreadyJoined e, sampleDB))
      ∧ (findUserChallenge sampleDB.userChallenges "a@b.c" 1 = none →
          countUserChallenge (join sampleDB (some "a@b.c") 1 10).2 "a@b.c" 1 = 1
          ∧ getParticipants (join sampleDB (some "a@b.c") 1 10).2 1 =
              some (sampleChallenge.participants + 1)
          ∧ ∃ e2, join (join sampleDB (some "a@b.c") 1 10).2 (some "a@b.c") 1 11 =
              (.alreadyJoined e2, (join sampleDB (some "a@b.c") 1 10).2))) :=
  ⟨by decide, join_idempotent sampleDB "a@b.c" 1 10 11 sampleChallenge (by decide)⟩

/-- C4: Join fails with NotFound and changes no state when the challenge is
absent; otherwise, with no existing enrollment, it creates an enrollment with
status Ongoing, progress 0, empty log, both timestamps now, and increments that
challenge's `participants` counter by exactly 1 (other counters untouched). -/
theorem join_creates_fresh_enrollment (db : DB) (u : String) (cid now : Nat) :
    (findById db.challenges cid = none → join db (some u) cid now = (.notFound, db))
    ∧ (∀ c, findById db.challenges cid = some c →
        findUserChallenge db.userChallenges u cid = none →
        (join db (some u) cid now).1 = .created db.nextId
          { userId := u, challengeId := cid, status := .Ongoing, progress := 0,
            progressLogs := [], joinDate := now, lastUpdated := now }
        ∧ (join db (some u) cid now).2.userChallenges
            = db.userChallenges ++ [(db.nextId,
                { userId := u, challengeId := cid, status := .Ongoing, progress := 0,
                  progressLogs := [], joinDate := now, lastUpdated := now })]
        ∧ getParticipants (join db (some u) cid now).2 cid = some (c.participants + 1)
        ∧ ∀ cid2, cid2 ≠ cid →
            getParticipants (join db (some u) cid now).2 cid2 = getParticipants db cid2) := by
  constructor
  · intro hc
    exact join_of_challenge_absent hc
  · intro c hc he
    rw [join_of_fresh hc he]
    refine ⟨rfl, rfl, ?_, ?_⟩
    · rw [getParticipants]
      show ((findById (incParticipants db.challenges cid) cid).map _) = _
      rw [incParticipants, findById_updateFirst_key, hc]
      rfl
    · intro cid2 hne
      rw [getParticipants, getParticipants]
      show ((findById (incParticipants db.challenges cid) cid2).map _) = _
      rw [incParticipants, findById_updateFirst_ne db.challenges cid cid2 _ hne]

/-- Closed instance of `join_creates_fresh_enrollment` at a concrete store. -/
theorem join_creates_fresh_enrollment_witness :
    (findById sampleDB.challenges 1 = none →
        join sampleDB (some "a@b.c") 1 10 = (.notFound, sampleDB))
    ∧ (∀ c, findById sampleDB.challenges 1 = some c →
        findUserChallenge sampleDB.userChallenges "a@b.c" 1 = none →
        (join sampleDB (some "a@b.c") 1 10).1 = .created sampleDB.nextId
          { userId := "a@b.c", challengeId := 1, status := .Ongoing, progress := 0,
            progressLogs := [], joinDate := 10, lastUpdated := 10 }
        ∧ (join sampleDB (some "a@b.c") 1 10).2.userChallenges
            = sampleDB.userChallenges ++ [(sampleDB.nextId,
                { userId := "a@b.c", challengeId := 1, status := .Ongoing, progress := 0,
                  progressLogs := [], joinDate := 10, lastUpdated := 10 })]
        ∧ getParticipants (join sampleDB (some "a@b.c") 1 10).2 1 = some (c.participants + 1)
        ∧ ∀ cid2, cid2 ≠ 1 →
            getParticipants (join sampleDB (some "a@b.c") 1 10).2 cid2 =
              getParticipants sampleDB cid2) :=
  join_creates_fresh_enrollment sampleDB "a@b.c" 1 10

/-- C5: UpdateProgress and Leave fail with NotFound when the enrollment is
absent and with Forbidden when the caller is not its owner, in both cases
returning the store unchanged. -/
theorem update_leave_notfound_forbidden (db : DB) (u : String) (id : Nat)
    (progressArg addLogValueArg : Option Rat) (now : Nat) :
    (findById db.userChallenges id = none →
        updateProgress db (some u) id progressArg addLogValueArg now = (.notFound, db)
        ∧ leave db (some u) id = (.notFound, db))
    ∧ (∀ uc, findById db.userChallenges id = some uc → uc.userId ≠ u →
        updateProgress db (some u) id progressArg addLogValueArg now = (.forbidden, db)
        ∧ leave db (some u) id = (.forbidden, db)) :=
  ⟨fun h => ⟨updateProgress_of_absent h, leave_of_absent h⟩,
   fun _ h hne => ⟨updateProgress_of_forbidden h hne, leave_of_forbidden h hne⟩⟩

/-- Closed instance of `update_leave_notfound_forbidden` at a concrete store. -/
theorem update_leave_notfound_forbidden_witness :
    (findById sampleDB2.userChallenges 3 = none →
        updateProgress sampleDB2 (some "x@y.z") 3 (some 50) none 10 = (.notFound, sampleDB2)
        ∧ leave sampleDB2 (some "x@y.z") 3 = (.notFound, sampleDB2))
    ∧ (∀ uc, findById sampleDB2.userChallenges 3 = some uc → uc.userId ≠ "x@y.z" →
        updateProgress sampleDB2 (some "x@y.z") 3 (some 50) none 10 = (.forbidden, sampleDB2)
        ∧ leave sampleDB2 (some "x@y.z") 3 = (.forbidden, sampleDB2)) :=
  update_leave_notfound_forbidden sampleDB2 "x@y.z" 3 (some 50) none 10

/-- C9: every identity-requiring operation invoked without a caller identity
fails with Unauthorized and changes no state. -/
theorem no_identity_unauthorized (db : DB) (cid id now : Nat)
    (progressArg addLogValueArg : Option Rat) :
    join db none cid now = (.unauthorized, db)
    ∧ updateProgress db none id progressArg addLogValueArg now = (.unauthorized, db)
    ∧ leave db none id = (.unauthorized, db)
    ∧ listMine db none = .unauthorized :=
  ⟨rfl, rfl, rfl, rfl⟩

/-- C10: Leave by the owner succeeds even when the referenced challenge no
longer exists: the enrollment is deleted, the call returns success, and the
counter decrement silently matches no challenge document. -/
theorem leave_orphan_succeeds (db : DB) (u : String) (id : Nat) (uc : Enrollment)
    (h : findById db.userChallenges id = some uc) (ho : uc.userId = u)
    (hc : findById db.challenges uc.challengeId = none) :
    leave db (some u) id =
      (.ok, { db with userChallenges := eraseFirstById db.userChallenges id }) := by
  rw [leave_of_owner h ho, decParticipants_of_not_found hc]

/-- Closed instance of `leave_orphan_succeeds` at a concrete store. -/
theorem leave_orphan_succeeds_witness :
    findById orphanDB.userChallenges 8 = some orphanEnrollment
    ∧ orphanEnrollment.userId = "a@b.c"
    ∧ findById orphanDB.challenges orphanEnrollment.challengeId = none
    ∧ leave orphanDB (some "a@b.c") 8 =
        (.ok, { orphanDB with userChallenges := eraseFirstById orphanDB.userChallenges 8 }) :=
  ⟨by decide, by decide, by decide,
   leave_orphan_succeeds orphanDB "a@b.c" 8 orphanEnrollment (by decide) (by decide) (by decide)⟩

/-- A single Leave call preserves non-negativity of every counter. -/
theorem leave_nonneg (db : DB) (caller : Option String) (id : Nat)
    (h : NonNegCounters db) : NonNegCounters (leave db caller id).2 := by
  cases caller with
  | none => exact h
  | some u =>
    cases hf : findById db.userChallenges id with
    | none =>
      rw [leave_of_absent hf]
      exact h
    | some uc =>
      by_cases ho : uc.userId = u
      · rw [leave_of_owner hf ho]
        intro x hx
        exact decParticipants_nonneg h x hx
      · rw [leave_of_forbidden hf ho]
        exact h

/-- C3: starting from non-negative counters, no sequence of Leave calls can
drive any challenge's `participants` below 0; Leave deletes the enrollment and
applies the guarded decrement, which takes 1 off a positive counter and is a
no-op on a zero counter. -/
theorem participants_never_negative :
    (∀ db calls, NonNegCounters db → NonNegCounters (leaveSeq db calls))
    ∧ (∀ db u id uc, findById db.userChallenges id = some uc → uc.userId = u →
        leave db (some u) id =
          (.ok, { db with userChallenges := eraseFirstById db.userChallenges id
                          challenges := decParticipants db.challenges uc.challengeId }))
    ∧ (∀ cs cid c, findById cs cid = some c → 0 < c.participants →
        findById (decParticipants cs cid) cid =
          some { c with participants := c.participants - 1 })
    ∧ (∀ cs cid c, (List.map Prod.fst cs).Nodup → findById cs cid = some c →
        c.participants = 0 → decParticipants cs cid = cs) := by
  refine ⟨?_, ?_, ?_, ?_⟩
  · intro db calls
    induction calls generalizing db with
    | nil => exact fun h => h
    | cons cv rest ih =>
      intro h
      exact ih ((leave db cv.1 cv.2).2) (leave_nonneg db cv.1 cv.2 h)
  · intro db u id uc hf ho
    exact leave_of_owner hf ho
  · intro cs cid c hfind hpos
    exact findById_decParticipants_pos hfind hpos
  · intro cs cid c hnd hfind hz
    exact decParticipants_no_op hnd hfind hz

/-- Closed instance of `participants_never_negative`: a store with one
enrollment, drained by two Leave calls (the second a no-op), keeps all
counters non-negative. -/
theorem participants_never_negative_witness :
    NonNegCounters sampleDB2
    ∧ NonNegCounters (leaveSeq sampleDB2 [(some "a@b.c", 7), (some "a@b.c", 7)]) :=
  ⟨by intro x hx
      simp only [sampleDB2, List.mem_singleton] at hx
      subst hx
      decide,
   participants_never_negative.1 sampleDB2 [(some "a@b.c", 7), (some "a@b.c", 7)]
     (by intro x hx
         simp only [sampleDB2, List.mem_singleton] at hx
         subst hx
         decide)⟩

/-- A log-only owner update succeeds and returns the enrollment with one entry
appended, everything except `progressLogs` and `lastUpdated` untouched. -/
theorem updateProgress_addLog (db : DB) (u : String) (id : Nat) (v : Rat) (now : Nat)
    (uc : Enrollment) (hf : findById db.userChallenges id = some uc) (ho : uc.userId = u) :
    updateProgress db (some u) id none (some v) now =
      (.ok (some { uc with progressLogs := uc.progressLogs ++ [⟨now, v⟩], lastUpdated := now }),
       { db with userChallenges := progressWrites db.userChallenges id none (some v) now })
    ∧ findById (progressWrites db.userChallenges id none (some v) now) id =
      some { uc with progressLogs := uc.progressLogs ++ [⟨now, v⟩], lastUpdated := now } := by
  have hread := findById_progressWrites none (some v) now hf
  have hread2 : findById (progressWrites db.userChallenges id none (some v) now) id =
      some { uc with progressLogs := uc.progressLogs ++ [⟨now, v⟩], lastUpdated := now } := hread
  exact ⟨by rw [updateProgress_of_owner hf ho, hread2], hread2⟩

/-- Folding log-only owner updates appends the entries in call order and leaves
`progress` and `status` untouched. -/
theorem updateSeq_appends (u : String) (id : Nat) :
    ∀ (calls : List (Rat × Nat)) (db : DB) (uc : Enrollment),
    findById db.userChallenges id = some uc → uc.userId = u →
    ∃ ucN, findById (updateSeq db u id calls).userChallenges id = some ucN
      ∧ ucN.userId = u
      ∧ ucN.progressLogs = uc.progressLogs ++ calls.map (fun c => (⟨c.2, c.1⟩ : LogEntry))
      ∧ ucN.progress = uc.progress
      ∧ ucN.status = uc.status := by
  intro calls
  induction calls with
  | nil =>
    intro db uc hf ho
    exact ⟨uc, hf, ho, by simp, rfl, rfl⟩
  | cons cv rest ih =>
    intro db uc hf ho
    have hstep := updateProgress_addLog db u id cv.1 cv.2 uc hf ho
    have hseq : updateSeq db u id (cv :: rest) =
        updateSeq (updateProgress db (some u) id none (some cv.1) cv.2).2 u id rest := rfl
    rw [hseq, hstep.1]
    obtain ⟨ucN, h1, h2, h3, h4, h5⟩ :=
      ih { db with userChallenges := progressWrites db.userChallenges id none (some cv.1) cv.2 }
        { uc with progressLogs := uc.progressLogs ++ [⟨cv.2, cv.1⟩], lastUpdated := cv.2 }
        hstep.2 ho
    refine ⟨ucN, h1, h2, ?_, h4, h5⟩
    rw [h3]
    simp

/-- C6: the progress log is append-only and independent of the progress field:
a log-only UpdateProgress by the owner appends `{date := now, value}` at the end
of `progressLogs` without touching existing entries, progress or status; after
N such calls the log holds the N values in call order and `progress` is
unchanged. -/
theorem progress_log_append_only (db : DB) (u : String) (id : Nat) (uc : Enrollment)
    (hf : findById db.userChallenges id = some uc) (ho : uc.userId = u) :
    (∀ v now, ∃ e2 db2,
        updateProgress db (some u) id none (some v) now = (.ok (some e2), db2)
        ∧ e2.progressLogs = uc.progressLogs ++ [⟨now, v⟩]
        ∧ e2.progress = uc.progress ∧ e2.status = uc.status)
    ∧ (∀ calls : List (Rat × Nat), ∃ ucN,
        findById (updateSeq db u id calls).userChallenges id = some ucN
        ∧ ucN.progressLogs = uc.progressLogs ++ calls.map (fun c => (⟨c.2, c.1⟩ : LogEntry))
        ∧ ucN.progress = uc.progress
        ∧ (uc.progressLogs = [] →
            ucN.progressLogs.length = calls.length
            ∧ ucN.progressLogs.map (fun en => en.value) = calls.map Prod.fst)) := by
  constructor
  · intro v now
    refine ⟨{ uc with progressLogs := uc.progressLogs ++ [⟨now, v⟩], lastUpdated := now },
            { db with userChallenges := progressWrites db.userChallenges id none (some v) now },
            (updateProgress_addLog db u id v now uc hf ho).1, rfl, rfl, rfl⟩
  · intro calls
    obtain ⟨ucN, h1, _, h3, h4, _⟩ := updateSeq_appends u id calls db uc hf ho
    refine ⟨ucN, h1, h3, h4, ?_⟩
    intro hnil
    rw [h3, hnil]
    constructor
    · simp
    · simp

/-- Closed instance of `progress_log_append_only` at a concrete store. -/
theorem progress_log_append_only_witness :
    findById sampleDB2.userChallenges 7 = some sampleEnrollment
    ∧ sampleEnrollment.userId = "a@b.c"
    ∧ ((∀ v now, ∃ e2 db2,
          updateProgress sampleDB2 (some "a@b.c") 7 none (some v) now = (.ok (some e2), db2)
          ∧ e2.progressLogs = sampleEnrollment.progressLogs ++ [⟨now, v⟩]
          ∧ e2.progress = sampleEnrollment.progress ∧ e2.status = sampleEnrollment.status)
      ∧ (∀ calls : List (Rat × Nat), ∃ ucN,
          findById (updateSeq sampleDB2 "a@b.c" 7 calls).userChallenges 7 = some ucN
          ∧ ucN.progressLogs
              = sampleEnrollment.progressLogs ++ calls.map (fun c => (⟨c.2, c.1⟩ : LogEntry))
          ∧ ucN.progress = sampleEnrollment.progress
          ∧ (sampleEnrollment.progressLogs = [] →
              ucN.progressLogs.length = calls.length
              ∧ ucN.progressLogs.map (fun en => en.value) = calls.map Prod.fst))) :=
  ⟨by decide, by decide,
   progress_log_append_only sampleDB2 "a@b.c" 7 sampleEnrollment (by decide) (by decide)⟩

/-- The `$addToSet` fold builds a duplicate-free list whose elements are those
of the input prepended to the accumulator. -/
theorem addToSetFold_go (l : List String) : ∀ acc : List String, acc.Nodup →
    (List.foldl (fun acc u => if u ∈ acc then acc else acc ++ [u]) acc l).Nodup
    ∧ (List.foldl (fun acc u => if u ∈ acc then acc else acc ++ [u]) acc l).toFinset
        = acc.toFinset ∪ l.toFinset := by
  induction l with
  | nil =>
    intro acc h
    exact ⟨h, by simp⟩
  | cons u rest ih =>
    intro acc hacc
    rw [List.foldl_cons]
    by_cases hu : u ∈ acc
    · rw [if_pos hu]
      obtain ⟨h1, h2⟩ := ih acc hacc
      refine ⟨h1, ?_⟩
      rw [h2, List.toFinset_cons, Finset.union_insert,
        Finset.insert_eq_self.2 (Finset.mem_union_left _ (List.mem_toFinset.2 hu))]
    · rw [if_neg hu]
      have hnd : (acc ++ [u]).Nodup := by
        simp [List.nodup_append, hacc, hu]
      obtain ⟨h1, h2⟩ := ih (acc ++ [u]) hnd
      refine ⟨h1, ?_⟩
      rw [h2, List.toFinset_append, List.toFinset_cons]
      ext a
      simp
      tauto

/-- The `$size` of the `$addToSet` set counts the distinct inputs. -/
theorem addToSetFold_length (l : List String) :
    (addToSetFold l).length = l.toFinset.card := by
  obtain ⟨h1, h2⟩ := addToSetFold_go l [] List.nodup_nil
  rw [addToSetFold, ← List.toFinset_card_of_nodup h1, h2]
  simp

/-- `activeParticipants` counts distinct userIds among Ongoing enrollments. -/
theorem activeParticipants_eq (db : DB) :
    activeParticipants db = ((ongoingEnrollments db).map (fun e => e.userId)).toFinset.card := by
  cases h : ongoingEnrollments db with
  | nil => simp [activeParticipants, h]
  | cons e rest =>
    simp only [activeParticipants, h]
    exact addToSetFold_length _

/-- The empty-corpus guard of the stats sum collapses to a plain sum. -/
theorem totalLoggedQuantity_eq (db : DB) :
    totalLoggedQuantity db = ((unwoundLogs db).map (fun en => en.value)).sum := by
  cases h : unwoundLogs db with
  | nil => simp [totalLoggedQuantity, h]
  | cons e rest => simp only [totalLoggedQuantity, h]

/-- C7: `activeParticipants` equals the number of distinct userIds among
enrollments with status Ongoing, the logged total equals the sum of every log
entry's value over every enrollment regardless of status, and an empty corpus
yields all zeros without failing. -/
theorem stats_aggregations (db : DB) :
    (computeStats db).activeParticipants
        = ((ongoingEnrollments db).map (fun e => e.userId)).toFinset.card
    ∧ (computeStats db).totalPlasticReducedKg
        = ((db.userChallenges.map Prod.snd).map
            (fun e => (e.progressLogs.map (fun en => en.value)).sum)).sum
    ∧ (db.challenges = [] → db.userChallenges = [] → computeStats db = ⟨0, 0, 0⟩) := by
  refine ⟨activeParticipants_eq db, ?_, ?_⟩
  · show totalLoggedQuantity db = _
    rw [totalLoggedQuantity_eq, unwoundLogs, List.map_flatten, List.sum_flatten,
      List.map_map, List.map_map]
    rfl
  · intro h1 h2
    simp [computeStats, activeParticipants, ongoingEnrollments, totalLoggedQuantity,
      unwoundLogs, h1, h2]

/-- Closed instance of `stats_aggregations`, including the worked aggregation
example: one distinct ongoing user, logged total 5 + 3 + 10 = 18. -/
theorem stats_aggregations_witness :
    ((computeStats statsDB).activeParticipants
        = ((ongoingEnrollments statsDB).map (fun e => e.userId)).toFinset.card
      ∧ (computeStats statsDB).totalPlasticReducedKg
        = ((statsDB.userChallenges.map Prod.snd).map
            (fun e => (e.progressLogs.map (fun en => en.value)).sum)).sum
      ∧ (statsDB.challenges = [] → statsDB.userChallenges = [] → computeStats statsDB = ⟨0, 0, 0⟩))
    ∧ (computeStats statsDB).activeParticipants = 1
    ∧ (computeStats statsDB).totalPlasticReducedKg = 18 :=
  ⟨stats_aggregations statsDB, by decide,
   by simp [computeStats, totalLoggedQuantity, unwoundLogs, statsDB]; norm_num⟩

/-- C8: ListMine returns exactly the caller's enrollments, each paired with the
`findOne` of its referenced challenge; a missing challenge yields a `none`
reference and the call still succeeds. -/
theorem listMine_exactly_owned (db : DB) (u : String) :
    ∃ items, listMine db (some u) = .ok items
      ∧ (∀ e ch, (e, ch) ∈ items → e.userId = u ∧ ch = findById db.challenges e.challengeId)
      ∧ (∀ p ∈ db.userChallenges, p.2.userId = u →
          (p.2, findById db.challenges p.2.challengeId) ∈ items)
      ∧ items.length = (db.userChallenges.filter (fun p => p.2.userId == u)).length := by
  refine ⟨(db.userChallenges.filter (fun p => p.2.userId == u)).map
      (fun p => (p.2, findById db.challenges p.2.challengeId)), by rfl, ?_, ?_, by simp⟩
  · intro e ch hmem
    rcases List.mem_map.1 hmem with ⟨p, hp, heq⟩
    rcases List.mem_filter.1 hp with ⟨_, hpu⟩
    cases heq
    exact ⟨by simpa using hpu, rfl⟩
  · intro p hp hpu
    exact List.mem_map.2 ⟨p, List.mem_filter.2 ⟨hp, by simpa using hpu⟩, rfl⟩

/-- Closed instance of `listMine_exactly_owned` at a store with an orphaned
enrollment. -/
theorem listMine_exactly_owned_witness :
    ∃ items, listMine orphanDB (some "a@b.c") = .ok items
      ∧ (∀ e ch, (e, ch) ∈ items →
          e.userId = "a@b.c" ∧ ch = findById orphanDB.challenges e.challengeId)
      ∧ (∀ p ∈ orphanDB.userChallenges, p.2.userId = "a@b.c" →
          (p.2, findById orphanDB.challenges p.2.challengeId) ∈ items)
      ∧ items.length
          = (orphanDB.userChallenges.filter (fun p => p.2.userId == "a@b.c")).length :=
  listMine_exactly_owned orphanDB "a@b.c"

end EcoTrack
